import Mathlib

/-!
Verification of the llarp path layer (`src/llarp/path.cpp`,
`src/llarp/util/bencode.hpp`) against its natural-language specification.

The shallow embedding below models:
* `PathID_t` / `RouterID` / keys / nonces as natural numbers;
* the two `PathContext` registries (`m_OurPaths`, `m_TransitPaths`), which
  are `std::unordered_multimap`s in the source, as association lists
  `List (PathID × V)`; `emplace` appends, `equal_range`+check becomes
  "first entry with the given key satisfying the check", and
  `multimap::erase(key)` removes every entry with that key;
* `llarp_time_t` (a `uint64_t` of milliseconds) as `Nat` with explicit
  two's-complement wraparound on subtraction (`usub64`);
* byte buffers (`llarp_buffer_t`) as `List Nat` of byte values.
-/

namespace llarp

abbrev PathID := Nat
abbrev RouterID := Nat
abbrev SharedKey := Nat
abbrev TunnelNonce := Nat

/-- Width of `uint64_t`, the type of `llarp_time_t`. -/
def W64 : Nat := 2 ^ 64

/-- Unsigned 64-bit subtraction `a - b` with wraparound, as C computes it
on `uint64_t` operands. -/
def usub64 (a b : Nat) : Nat :=
  (a % W64 + (W64 - b % W64)) % W64

/-- Struct `TransitHopInfo` from `path.hpp` (declaration not in the sources; its
fields are those used by `path.cpp` and listed by the spec's HopInfo data
model: TX id, RX id, upstream and downstream router identities, lifetime). -/
structure TransitHopInfo where
  txID : PathID
  rxID : PathID
  upstream : RouterID
  downstream : RouterID
  lifetime : Nat
deriving DecidableEq, Inhabited

/-- Struct `TransitHop` per the spec's data model: its `TransitHopInfo` plus the
registration timestamp. -/
structure TransitHop where
  info : TransitHopInfo
  started : Nat
deriving DecidableEq, Inhabited

/-- Modelled from the spec: `TransitHop` expiry (`path.hpp` is not in the
sources); spec §4.3: "expiry check (`now - registeredAt > info.lifetime`)",
computed on `uint64_t` milliseconds. -/
def TransitHop.Expired (h : TransitHop) (now : Nat) : Bool :=
  usub64 now h.started > h.info.lifetime

/-- One hop record of a locally-originated `Path` (`PathHopConfig` fields
used by `path.cpp`: the hop's router identity, TX/RX path ids, the shared
secret, and the lifetime). -/
structure PathHop where
  router : RouterID
  txID : PathID
  rxID : PathID
  shared : SharedKey
  lifetime : Nat
deriving DecidableEq, Inhabited

/-- Struct `Path`: the ordered hop chain plus the build timestamp. -/
structure Path where
  hops : List PathHop
  buildStarted : Nat
deriving DecidableEq, Inhabited

/-- Accessor `Path::TXID()`: `hops[0].txID`. -/
def Path.TXID (p : Path) : PathID :=
  (p.hops.getD 0 default).txID

/-- Accessor `Path::RXID()`: `hops[0].rxID`. -/
def Path.RXID (p : Path) : PathID :=
  (p.hops.getD 0 default).rxID

/-- Accessor `Path::Upstream()`: `hops[0].router.pubkey`. -/
def Path.Upstream (p : Path) : RouterID :=
  (p.hops.getD 0 default).router

/-- Predicate `Path::Expired(now)`: `now - buildStarted > hops[0].lifetime`, where the
subtraction is on `uint64_t` and therefore wraps. -/
def Path.Expired (p : Path) (now : Nat) : Bool :=
  usub64 now p.buildStarted > (p.hops.getD 0 default).lifetime

/-- The transit-paths registry `m_TransitPaths.second`: an association list
standing for the `std::unordered_multimap<PathID_t, TransitHop*>`. -/
abbrev TransitMap := List (PathID × TransitHop)

/-- The own-paths registry `m_OurPaths.second`. -/
abbrev OwnMap := List (PathID × Path)

/-- Helper `MapGet(map, k, check)`: walk `equal_range(k)` and return the first
value passing `check`, else the null sentinel (`none`). -/
def MapGet {V : Type} (m : List (PathID × V)) (k : PathID) (check : V → Bool) :
    Option V :=
  (m.find? fun e => e.1 == k && check e.2).map (·.2)

/-- Helper `MapHas(map, k, check)`: whether some entry under key `k` passes
`check`. -/
def MapHas {V : Type} (m : List (PathID × V)) (k : PathID) (check : V → Bool) :
    Bool :=
  m.any fun e => e.1 == k && check e.2

/-- Helper `MapPut(map, k, v)`: `emplace` a new entry. -/
def MapPut {V : Type} (m : List (PathID × V)) (k : PathID) (v : V) :
    List (PathID × V) :=
  m ++ [(k, v)]

namespace PathContext

/-- Operation `PathContext::PutTransitHop(hop)`: register under both the TX and the
RX id. -/
def PutTransitHop (m : TransitMap) (hop : TransitHop) : TransitMap :=
  MapPut (MapPut m hop.info.txID hop) hop.info.rxID hop

/-- Operation `PathContext::AddOwnPath(path)`: register under both `TXID()` and
`RXID()`. -/
def AddOwnPath (m : OwnMap) (path : Path) : OwnMap :=
  MapPut (MapPut m path.TXID path) path.RXID path

/-- Operation `PathContext::HasTransitHop(info)`: look up `info.txID` and compare
`HopInfo` for exact equality. -/
def HasTransitHop (m : TransitMap) (info : TransitHopInfo) : Bool :=
  MapHas m info.txID fun hop => info == hop.info

/-- Operation `multimap::erase(k)`: drop every entry whose key is `k`. -/
def eraseKey (m : TransitMap) (k : PathID) : TransitMap :=
  m.filter fun e => e.1 != k

/-- Operation `PathContext::ExpirePaths()`: collect the transit hops that are expired
at `now`, then for each collected hop erase all entries under its TX key and
all entries under its RX key. -/
def ExpirePaths (now : Nat) (m : TransitMap) : TransitMap :=
  let removePaths := (m.filter fun e => e.2.Expired now).map (·.2)
  removePaths.foldl (fun mp p => eraseKey (eraseKey mp p.info.txID) p.info.rxID) m

/-- Operation `PathContext::GetByUpstream(remote, id)`: first the own-paths map with
check `p->Upstream() == remote`, then the transit map with check
`hop->info.upstream == remote`; `nullptr` becomes `none`. -/
def GetByUpstream (own : OwnMap) (transit : TransitMap) (remote : RouterID)
    (id : PathID) : Option (Path ⊕ TransitHop) :=
  match MapGet own id (fun p => p.Upstream == remote) with
  | some p => some (Sum.inl p)
  | none =>
      (MapGet transit id fun hop => hop.info.upstream == remote).map Sum.inr

/-- Operation `PathContext::GetByDownstream(remote, id)`: transit map only, check
`hop->info.downstream == remote`. -/
def GetByDownstream (transit : TransitMap) (remote : RouterID)
    (id : PathID) : Option TransitHop :=
  MapGet transit id fun hop => hop.info.downstream == remote

end PathContext

/-! ## Path construction (`Path::Path(llarp_path_hops* h)`)

The constructor first fills every hop with its router and freshly
randomized TX/RX ids, then runs
`for(idx = numHops - 1; idx > 0; --idx) hops[idx].txID = hops[idx-1].rxID`.
The randomized ids are modelled by two given functions `ftx`, `frx`
(hop index ↦ the random value drawn for it); the hop array is modelled as a
function from indices. -/

/-- One iteration `hops[idx].txID = hops[idx - 1].rxID`. -/
def chainStep (hops : Nat → PathHop) (idx : Nat) : Nat → PathHop :=
  Function.update hops idx { hops idx with txID := (hops (idx - 1)).rxID }

/-- The descending loop body: `chainLoop hops m` performs the assignments
at `idx = m, m-1, ..., 1` (none when `m = 0`). -/
def chainLoop (hops : Nat → PathHop) : Nat → (Nat → PathHop)
  | 0 => hops
  | m + 1 => chainLoop (chainStep hops (m + 1)) m

/-- Constructor `Path::Path`: randomize every hop's TX/RX id, then chain
`hops[idx].txID = hops[idx-1].rxID` for `idx` from `numHops - 1` down
to `1`. -/
def pathConstruct (router ftx frx : Nat → Nat) (numHops : Nat) : Nat → PathHop :=
  chainLoop (fun i => ⟨router i, ftx i, frx i, 0, 0⟩) (numHops - 1)

/-! ## Layered encryption (`Path::HandleUpstream` / `Path::HandleDownstream`)

The crypto facade is external. Modelled from the spec:
`streamCipherTransform(buffer, key, nonce)` — "in-place or copying
symmetric transform, same operation for encrypt and decrypt given matching
key/nonce", i.e. XOR with a keystream determined by the key and the nonce;
`ks key nonce i` is the keystream byte at offset `i`. -/

/-- Transform `crypto.xchacha20(buf, key, nonce)` over a byte list, starting at
keystream offset `i`. -/
def xchacha20 (ks : SharedKey → TunnelNonce → Nat → Nat) (key : SharedKey)
    (Y : TunnelNonce) : Nat → List Nat → List Nat
  | _, [] => []
  | i, b :: rest => (b ^^^ ks key Y i) :: xchacha20 ks key Y (i + 1) rest

/-- The per-hop cipher loop shared by `HandleUpstream` and
`HandleDownstream`: `for(const auto& hop : hops) xchacha20(buf, hop.shared, Y)`. -/
def applyLayers (ks : SharedKey → TunnelNonce → Nat → Nat) (hops : List PathHop)
    (Y : TunnelNonce) (buf : List Nat) : List Nat :=
  hops.foldl (fun b hop => xchacha20 ks hop.shared Y 0 b) buf

/-- The `RelayUpstreamMessage` built by `HandleUpstream`. -/
structure RelayUpstreamMessage where
  X : List Nat
  Y : TunnelNonce
  pathid : PathID
deriving DecidableEq

/-- Operation `Path::HandleUpstream(buf, Y, r)`: run the per-hop cipher loop, wrap
the result with the nonce and `TXID()` into a `RelayUpstreamMessage`, and
hand it to `r->SendToOrQueue(Upstream(), msg)` (the transport primitive is
the parameter `send`). Returns the message together with the send result. -/
def Path.HandleUpstream (ks : SharedKey → TunnelNonce → Nat → Nat)
    (send : RouterID → RelayUpstreamMessage → Bool) (p : Path)
    (buf : List Nat) (Y : TunnelNonce) : RelayUpstreamMessage × Bool :=
  let X := applyLayers ks p.hops Y buf
  let msg : RelayUpstreamMessage := ⟨X, Y, p.TXID⟩
  (msg, send p.Upstream msg)

/-- Operation `Path::HandleDownstream(buf, Y, r)`: run the identical per-hop cipher
loop, then hand the result to `HandleRoutingMessage` (the parser is the
parameter `parse`). Returns the buffer given to the parser together with
the parse result. -/
def Path.HandleDownstream (ks : SharedKey → TunnelNonce → Nat → Nat)
    (parse : List Nat → Bool) (p : Path) (buf : List Nat) (Y : TunnelNonce) :
    List Nat × Bool :=
  let X := applyLayers ks p.hops Y buf
  (X, parse X)

/-- Operation `Path::SendRoutingMessage(msg, r)`: serialize into the fixed scratch
buffer of capacity `cap` (= `MAX_LINK_MSG_SIZE / 2`; `msg->BEncode`
is the external encoding facade — it fails exactly when the encoding of
`msgBytes` does not fit), rewind the buffer to the written extent, draw a
fresh nonce `N`, and return `HandleUpstream` on the serialized bytes.
The second component records the sends issued. -/
def Path.SendRoutingMessage (ks : SharedKey → TunnelNonce → Nat → Nat)
    (send : RouterID → RelayUpstreamMessage → Bool) (cap : Nat) (p : Path)
    (msgBytes : List Nat) (N : TunnelNonce) :
    Bool × List (RouterID × RelayUpstreamMessage) :=
  if msgBytes.length > cap then (false, [])
  else
    let r := p.HandleUpstream ks send msgBytes N
    (r.2, [(p.Upstream, r.1)])

/-! ## `PathContext::ForwardLRCM` -/

/-- An opaque `EncryptedFrame`. -/
abbrev EncryptedFrame := Nat

/-- The drain loop
`while(frames.size()) { msg->frames.push_back(frames.front()); frames.pop_front(); }`:
`acc` is `msg->frames` so far; returns (final `msg->frames`, final queue). -/
def drainFrames : List EncryptedFrame → List EncryptedFrame →
    List EncryptedFrame × List EncryptedFrame
  | [], acc => (acc, [])
  | f :: rest, acc => drainFrames rest (acc ++ [f])

/-- Operation `PathContext::ForwardLRCM(nextHop, frames)`: build one
`LR_CommitMessage` holding the drained frames, send it with
`SendToOrQueue(nextHop, msg)`, and return the send result. The result is
(send result, queue after the call, list of sends issued with their frame
payloads). -/
def PathContext.ForwardLRCM (send : RouterID → List EncryptedFrame → Bool)
    (nextHop : RouterID) (frames : List EncryptedFrame) :
    Bool × List EncryptedFrame × List (RouterID × List EncryptedFrame) :=
  let d := drainFrames frames []
  (send nextHop d.1, d.2, [(nextHop, d.1)])

/-! ## `BEncodeReadArray` (`util/bencode.hpp`)

A `llarp_buffer_t` being decoded is the list of its remaining bytes; an
element decoder `dec` (`Array::value_type::BDecode`) consumes a prefix of
the buffer and returns the rest, or `none` on failure. `bencode_read_list`
loops while the cursor is not at a list terminator; its recursion is run on
the fuel `buf.length + 1`, enough whenever every element decode consumes at
least one byte. The byte `108` is `'l'` and `101` is `'e'`. In
`BEncodeReadArray`'s sink, an element beginning when `idx` has already
reached `array.size()` aborts with `false`, and otherwise
`array[idx++].BDecode(buffer)` runs; the trace returned alongside the
result records each index at which a decode was attempted, in order. -/

/-- The `bencode_read_list` loop instrumented with the decode trace, with
`BEncodeReadArray`'s sink inlined (`k` is `array.size()`). -/
def readArrayLoop (dec : List Nat → Option (List Nat)) (k : Nat) :
    Nat → Nat → List Nat → Bool × List Nat
  | 0, _, _ => (false, [])
  | _ + 1, _, [] => (false, [])
  | fuel + 1, idx, c :: rest =>
    if c = 101 then (true, [])
    else if k ≤ idx then (false, [])
    else
      match dec (c :: rest) with
      | none => (false, [])
      | some buf' =>
          let r := readArrayLoop dec k fuel (idx + 1) buf'
          (r.1, idx :: r.2)

/-- Function `BEncodeReadArray(array, buf)` over a destination array of size `k`:
`bencode_read_list` checks the two-byte minimum (`size_left() < 2` fails,
i.e. the buffer must be at least a two-byte `le`) and the leading `'l'`,
then runs the sink loop from index `0` on the remaining bytes. -/
def BEncodeReadArray (dec : List Nat → Option (List Nat)) (k : Nat) :
    List Nat → Bool × List Nat
  | c :: b :: rest =>
      if c = 108 then readArrayLoop dec k (rest.length + 2) 0 (b :: rest)
      else (false, [])
  | _ => (false, [])

/-- The number of elements of the bencoded list at the head of `buf`, under
element decoder `dec`: `some n` when the list is well formed (with the same
fuel policy as `readArrayLoop`), `none` otherwise. -/
def countListLoop (dec : List Nat → Option (List Nat)) :
    Nat → List Nat → Option Nat
  | 0, _ => none
  | _ + 1, [] => none
  | fuel + 1, c :: rest =>
    if c = 101 then some 0
    else
      match dec (c :: rest) with
      | none => none
      | some buf' => (countListLoop dec fuel buf').map (· + 1)

/-- Element count of the bencoded list in `buf`, including the frame
checks of `bencode_read_list` and the same fuel policy. -/
def bencodeListCount (dec : List Nat → Option (List Nat)) :
    List Nat → Option Nat
  | c :: b :: rest =>
      if c = 108 then countListLoop dec (rest.length + 2) (b :: rest)
      else none
  | _ => none

/-! ## Arithmetic facts about wrapped `uint64_t` subtraction -/

lemma W64_pos : 0 < W64 := by
  unfold W64
  positivity

lemma usub64_self (a : Nat) : usub64 a a = 0 := by
  have h1 : a % W64 < W64 := Nat.mod_lt _ W64_pos
  unfold usub64
  have h2 : a % W64 + (W64 - a % W64) = W64 := by omega
  rw [h2, Nat.mod_self]

lemma usub64_of_le {a b : Nat} (hba : b ≤ a) (ha : a < W64) :
    usub64 a b = a - b := by
  unfold usub64
  rw [Nat.mod_eq_of_lt ha, Nat.mod_eq_of_lt (lt_of_le_of_lt hba ha)]
  have h : a + (W64 - b) = W64 + (a - b) := by omega
  rw [h, Nat.add_mod_left, Nat.mod_eq_of_lt (by omega)]

lemma usub64_of_lt {a b : Nat} (hab : a < b) (hb : b < W64) :
    usub64 a b = W64 - (b - a) := by
  unfold usub64
  rw [Nat.mod_eq_of_lt (lt_trans hab hb), Nat.mod_eq_of_lt hb,
    Nat.mod_eq_of_lt (by omega)]
  omega

/-! ## Layered-cipher lemmas -/

lemma xchacha20_xchacha20 (ks : SharedKey → TunnelNonce → Nat → Nat)
    (key : SharedKey) (Y : TunnelNonce) :
    ∀ (i : Nat) (buf : List Nat),
      xchacha20 ks key Y i (xchacha20 ks key Y i buf) = buf := by
  intro i buf
  induction buf generalizing i with
  | nil => rfl
  | cons b rest ih =>
      simp [xchacha20, ih, Nat.xor_assoc, Nat.xor_self]

lemma xchacha20_swap (ks : SharedKey → TunnelNonce → Nat → Nat)
    (k1 k2 : SharedKey) (Y1 Y2 : TunnelNonce) :
    ∀ (i : Nat) (buf : List Nat),
      xchacha20 ks k1 Y1 i (xchacha20 ks k2 Y2 i buf)
        = xchacha20 ks k2 Y2 i (xchacha20 ks k1 Y1 i buf) := by
  intro i buf
  induction buf generalizing i with
  | nil => rfl
  | cons b rest ih =>
      simp only [xchacha20, ih, List.cons.injEq, and_true]
      rw [Nat.xor_assoc, Nat.xor_assoc, Nat.xor_comm (ks k2 Y2 i)]

lemma applyLayers_cons (ks : SharedKey → TunnelNonce → Nat → Nat)
    (h : PathHop) (t : List PathHop) (Y : TunnelNonce) (buf : List Nat) :
    applyLayers ks (h :: t) Y buf
      = applyLayers ks t Y (xchacha20 ks h.shared Y 0 buf) := rfl

lemma xchacha20_applyLayers_comm (ks : SharedKey → TunnelNonce → Nat → Nat)
    (key : SharedKey) (Y : TunnelNonce) :
    ∀ (t : List PathHop) (buf : List Nat),
      xchacha20 ks key Y 0 (applyLayers ks t Y buf)
        = applyLayers ks t Y (xchacha20 ks key Y 0 buf) := by
  intro t
  induction t with
  | nil => intro buf; rfl
  | cons h t ih =>
      intro buf
      rw [applyLayers_cons, applyLayers_cons, ih, xchacha20_swap]

lemma applyLayers_applyLayers (ks : SharedKey → TunnelNonce → Nat → Nat)
    (Y : TunnelNonce) :
    ∀ (hops : List PathHop) (buf : List Nat),
      applyLayers ks hops Y (applyLayers ks hops Y buf) = buf := by
  intro hops
  induction hops with
  | nil => intro buf; rfl
  | cons h t ih =>
      intro buf
      rw [applyLayers_cons, applyLayers_cons, xchacha20_applyLayers_comm,
        xchacha20_xchacha20, ih]

/-! ## Claim theorems -/

/-- C2: for every keystream facade, transport, parser, hop chain, payload
and nonce, feeding the ciphertext produced by `HandleUpstream`'s per-hop
cipher loop back through `HandleDownstream`'s per-hop cipher loop with the
same nonce hands the original payload, unchanged, to the routing-message
parser: the two hop-ordered xchacha20 passes compose to the identity. -/
theorem c2_roundtrip_identity (ks : SharedKey → TunnelNonce → Nat → Nat)
    (send : RouterID → RelayUpstreamMessage → Bool) (parse : List Nat → Bool)
    (p : Path) (buf : List Nat) (Y : TunnelNonce) :
    (p.HandleDownstream ks parse ((p.HandleUpstream ks send buf Y).1.X) Y).1
      = buf := by
  simp [Path.HandleUpstream, Path.HandleDownstream, applyLayers_applyLayers]

lemma drainFrames_eq :
    ∀ (q acc : List EncryptedFrame), drainFrames q acc = (acc ++ q, []) := by
  intro q
  induction q with
  | nil => intro acc; simp [drainFrames]
  | cons f rest ih => intro acc; simp [drainFrames, ih]

/-- C5: for every frame queue (the empty one included), `ForwardLRCM`
issues exactly one send of a single `LR_CommitMessage` holding all the
queue's frames in their original order, leaves the queue empty, and
returns exactly the transport send primitive's boolean result. -/
theorem c5_forwardLRCM (send : RouterID → List EncryptedFrame → Bool)
    (nextHop : RouterID) (frames : List EncryptedFrame) :
    PathContext.ForwardLRCM send nextHop frames
      = (send nextHop frames, [], [(nextHop, frames)]) := by
  simp [PathContext.ForwardLRCM, drainFrames_eq]

/-- C6: `Path::Expired(now)` decides expiry exactly by
`now - buildStarted > hops[0].lifetime` (whenever `now` does not precede
the build start, so the `uint64_t` subtraction does not wrap); with hop
lifetime one hour (3 600 000 ms) the path is not expired at the build
instant and is expired two hours (7 200 000 ms) later. -/
theorem c6_expiry (p : Path) :
    (∀ now, p.buildStarted ≤ now → now < W64 →
      (p.Expired now = true ↔
        now - p.buildStarted > (p.hops.getD 0 default).lifetime))
    ∧ ((p.hops.getD 0 default).lifetime = 3600000 →
        p.Expired p.buildStarted = false
        ∧ (p.buildStarted + 7200000 < W64 →
            p.Expired (p.buildStarted + 7200000) = true)) := by
  constructor
  · intro now h1 h2
    simp [Path.Expired, usub64_of_le h1 h2]
  · intro hl
    constructor
    · simp [Path.Expired, usub64_self]
    · intro h
      have h2 : usub64 (p.buildStarted + 7200000) p.buildStarted = 7200000 := by
        rw [usub64_of_le (Nat.le_add_right _ _) h]
        omega
      unfold Path.Expired
      rw [h2, hl]
      decide

/-- C6 witness: a one-hop path with lifetime 3 600 000 ms built at time 5
is not expired at time 5 and is expired at time 5 + 7 200 000. -/
theorem c6_expiry_witness :
    Path.Expired ⟨[⟨7, 1, 2, 0, 3600000⟩], 5⟩ 5 = false
    ∧ Path.Expired ⟨[⟨7, 1, 2, 0, 3600000⟩], 5⟩ (5 + 7200000) = true := by
  have h := (c6_expiry ⟨[⟨7, 1, 2, 0, 3600000⟩], 5⟩).2 (by decide)
  exact ⟨h.1, h.2 (by decide)⟩

/-- C9: `Path::Expired` computes the age with unsigned 64-bit wraparound:
it is literally `(now - buildStarted) mod 2^64 > hops[0].lifetime`; when
`buildStarted ≤ now` this is the true age comparison, and when `now`
precedes `buildStarted` the difference wraps to `2^64 - (buildStarted -
now)` and the path is reported expired exactly when that huge value
exceeds the lifetime. -/
theorem c9_expired_wraparound (p : Path) (now : Nat) :
    (p.Expired now
      = decide ((now % W64 + (W64 - p.buildStarted % W64)) % W64
          > (p.hops.getD 0 default).lifetime))
    ∧ (p.buildStarted ≤ now → now < W64 →
        (p.Expired now = true ↔
          now - p.buildStarted > (p.hops.getD 0 default).lifetime))
    ∧ (now < p.buildStarted → p.buildStarted < W64 →
        (p.Expired now = true ↔
          W64 - (p.buildStarted - now) > (p.hops.getD 0 default).lifetime)) := by
  refine ⟨rfl, ?_, ?_⟩
  · intro h1 h2
    simp [Path.Expired, usub64_of_le h1 h2]
  · intro h1 h2
    simp [Path.Expired, usub64_of_lt h1 h2]

/-- C9 witness: for a path built at time 10, at `now = 3` the age wraps to
`2^64 - 7`, which exceeds the lifetime 1000, so the path reports expired;
at `now = 12` the age is the true difference 2. -/
theorem c9_expired_wraparound_witness :
    (Path.Expired ⟨[⟨7, 1, 2, 0, 1000⟩], 10⟩ 3 = true
      ↔ W64 - (10 - 3) > 1000)
    ∧ (Path.Expired ⟨[⟨7, 1, 2, 0, 1000⟩], 10⟩ 12 = true ↔ 12 - 10 > 1000) :=
  ⟨(c9_expired_wraparound ⟨[⟨7, 1, 2, 0, 1000⟩], 10⟩ 3).2.2 (by decide) (by decide),
   (c9_expired_wraparound ⟨[⟨7, 1, 2, 0, 1000⟩], 10⟩ 12).2.1 (by decide) (by decide)⟩

/-! ## Hop-chaining lemmas -/

lemma chainStep_rxID (hops : Nat → PathHop) (idx i : Nat) :
    (chainStep hops idx i).rxID = (hops i).rxID := by
  unfold chainStep
  rw [Function.update_apply]
  split
  · next h => rw [h]
  · rfl

lemma chainStep_router (hops : Nat → PathHop) (idx i : Nat) :
    (chainStep hops idx i).router = (hops i).router := by
  unfold chainStep
  rw [Function.update_apply]
  split
  · next h => rw [h]
  · rfl

lemma chainStep_txID_ne (hops : Nat → PathHop) (idx i : Nat) (h : i ≠ idx) :
    (chainStep hops idx i).txID = (hops i).txID := by
  unfold chainStep
  rw [Function.update_apply, if_neg h]

lemma chainStep_txID_eq (hops : Nat → PathHop) (idx : Nat) :
    (chainStep hops idx idx).txID = (hops (idx - 1)).rxID := by
  unfold chainStep
  rw [Function.update_same]

lemma chainLoop_rxID :
    ∀ (m : Nat) (hops : Nat → PathHop) (i : Nat),
      (chainLoop hops m i).rxID = (hops i).rxID := by
  intro m
  induction m with
  | zero => intro hops i; rfl
  | succ m ih =>
      intro hops i
      rw [chainLoop, ih, chainStep_rxID]

lemma chainLoop_router :
    ∀ (m : Nat) (hops : Nat → PathHop) (i : Nat),
      (chainLoop hops m i).router = (hops i).router := by
  intro m
  induction m with
  | zero => intro hops i; rfl
  | succ m ih =>
      intro hops i
      rw [chainLoop, ih, chainStep_router]

lemma chainLoop_txID_high :
    ∀ (m : Nat) (hops : Nat → PathHop) (i : Nat), m < i →
      (chainLoop hops m i).txID = (hops i).txID := by
  intro m
  induction m with
  | zero => intro hops i _; rfl
  | succ m ih =>
      intro hops i hi
      rw [chainLoop, ih _ _ (by omega), chainStep_txID_ne _ _ _ (by omega)]

lemma chainLoop_txID_zero :
    ∀ (m : Nat) (hops : Nat → PathHop),
      (chainLoop hops m 0).txID = (hops 0).txID := by
  intro m
  induction m with
  | zero => intro hops; rfl
  | succ m ih =>
      intro hops
      rw [chainLoop, ih, chainStep_txID_ne _ _ _ (by omega)]

lemma chainLoop_txID :
    ∀ (m : Nat) (hops : Nat → PathHop) (i : Nat), 1 ≤ i → i ≤ m →
      (chainLoop hops m i).txID = (hops (i - 1)).rxID := by
  intro m
  induction m with
  | zero => intro hops i h1 h2; omega
  | succ m ih =>
      intro hops i h1 h2
      rcases Nat.lt_or_ge i (m + 1) with h | h
      · rw [chainLoop, ih _ _ h1 (by omega), chainStep_rxID]
      · have hi : i = m + 1 := by omega
        subst hi
        rw [chainLoop, chainLoop_txID_high _ _ _ (by omega), chainStep_txID_eq]

/-- C3: for every hop count `n ≥ 1`, after `Path::Path` runs, the chain
satisfies `hops[i].txID = hops[i-1].rxID` for every `1 ≤ i < n`, while
every hop's `rxID`, and `hops[0].txID`, keep the freshly generated random
values (`frx i` resp. `ftx 0`), and every hop keeps its chosen router. -/
theorem c3_hop_chaining (router ftx frx : Nat → Nat) (n : Nat) (hn : 1 ≤ n) :
    (∀ i, 1 ≤ i → i < n → (pathConstruct router ftx frx n i).txID = frx (i - 1))
    ∧ (∀ i, (pathConstruct router ftx frx n i).rxID = frx i)
    ∧ (pathConstruct router ftx frx n 0).txID = ftx 0
    ∧ (∀ i, (pathConstruct router ftx frx n i).router = router i) := by
  refine ⟨?_, ?_, ?_, ?_⟩
  · intro i h1 h2
    unfold pathConstruct
    rw [chainLoop_txID _ _ _ h1 (by omega)]
  · intro i
    unfold pathConstruct
    rw [chainLoop_rxID]
  · unfold pathConstruct
    rw [chainLoop_txID_zero]
  · intro i
    unfold pathConstruct
    rw [chainLoop_router]

/-- C3 witness: a 3-hop chain built from routers `i ↦ i`, fresh TX ids
`i ↦ i + 100` and fresh RX ids `i ↦ i + 200` has `hops[1].txID = 200`
(= `hops[0].rxID`), `hops[2].txID = 201` (= `hops[1].rxID`),
`hops[2].rxID = 202` and `hops[0].txID = 100`. -/
theorem c3_hop_chaining_witness :
    (pathConstruct (fun i => i) (fun i => i + 100) (fun i => i + 200) 3 1).txID = 200
    ∧ (pathConstruct (fun i => i) (fun i => i + 100) (fun i => i + 200) 3 2).txID = 201
    ∧ (pathConstruct (fun i => i) (fun i => i + 100) (fun i => i + 200) 3 2).rxID = 202
    ∧ (pathConstruct (fun i => i) (fun i => i + 100) (fun i => i + 200) 3 0).txID = 100 :=
  have h := c3_hop_chaining (fun i => i) (fun i => i + 100) (fun i => i + 200) 3
    (by decide)
  ⟨h.1 1 (by decide) (by decide), h.1 2 (by decide) (by decide),
   h.2.1 2, h.2.2.1⟩

/-! ## Registry sweep lemmas -/

lemma mem_eraseKey {m : TransitMap} {k : PathID} {e : PathID × TransitHop} :
    e ∈ PathContext.eraseKey m k ↔ e ∈ m ∧ e.1 ≠ k := by
  simp [PathContext.eraseKey, List.mem_filter, bne_iff_ne]

lemma mem_expireFold :
    ∀ (rs : List TransitHop) (m : TransitMap) (e : PathID × TransitHop),
      (e ∈ rs.foldl
          (fun mp p => PathContext.eraseKey (PathContext.eraseKey mp p.info.txID)
            p.info.rxID) m)
        ↔ e ∈ m ∧ ∀ p ∈ rs, e.1 ≠ p.info.txID ∧ e.1 ≠ p.info.rxID := by
  intro rs
  induction rs with
  | nil => intro m e; simp
  | cons p rs ih =>
      intro m e
      rw [List.foldl_cons, ih, mem_eraseKey, mem_eraseKey]
      constructor
      · rintro ⟨⟨⟨hm, htx⟩, hrx⟩, hrest⟩
        exact ⟨hm, fun q hq => by
          rcases List.mem_cons.mp hq with hq | hq
          · subst hq; exact ⟨htx, hrx⟩
          · exact hrest q hq⟩
      · rintro ⟨hm, hall⟩
        refine ⟨⟨⟨hm, (hall p (List.mem_cons_self _ _)).1⟩,
          (hall p (List.mem_cons_self _ _)).2⟩, fun q hq => hall q (List.mem_cons_of_mem _ hq)⟩

/-- An entry survives `ExpirePaths` exactly when it was present and its key
is neither the TX nor the RX id of any entry that was expired at `now`. -/
lemma mem_ExpirePaths {now : Nat} {m : TransitMap} {e : PathID × TransitHop} :
    e ∈ PathContext.ExpirePaths now m
      ↔ e ∈ m ∧ ∀ e' ∈ m, e'.2.Expired now = true →
          e.1 ≠ e'.2.info.txID ∧ e.1 ≠ e'.2.info.rxID := by
  unfold PathContext.ExpirePaths
  rw [mem_expireFold]
  constructor
  · rintro ⟨hm, hall⟩
    refine ⟨hm, fun e' he' hexp => ?_⟩
    refine hall e'.2 ?_
    simp only [List.mem_map, List.mem_filter]
    exact ⟨e', ⟨he', hexp⟩, rfl⟩
  · rintro ⟨hm, hall⟩
    refine ⟨hm, fun p hp => ?_⟩
    simp only [List.mem_map, List.mem_filter] at hp
    obtain ⟨e', ⟨he', hexp⟩, hpe⟩ := hp
    subst hpe
    exact hall e' he' hexp

/-- C1 (amended): after one `ExpirePaths` sweep, (a) every transit hop that
was expired at sweep time is unreachable by both its TX and its RX id, and
(b) a transit-paths entry whose hop was not yet expired survives under a
key it was registered with if and only if that key is not the TX or RX id
of some entry expired at sweep time (`multimap::erase(key)` drops every
entry under an expired hop's keys, including entries of other, live hops
that share the key; entries of a live hop with no key shared with an
expired hop therefore remain fully reachable by both its ids). -/
theorem c1_expire_sweep (m : TransitMap) (now : Nat) :
    (∀ k hop, (k, hop) ∈ m → hop.Expired now = true →
      (hop.info.txID, hop) ∉ PathContext.ExpirePaths now m
      ∧ (hop.info.rxID, hop) ∉ PathContext.ExpirePaths now m)
    ∧ (∀ k hop, (k, hop) ∈ m → hop.Expired now = false →
        ((k, hop) ∈ PathContext.ExpirePaths now m ↔
          ∀ e' ∈ m, e'.2.Expired now = true →
            k ≠ e'.2.info.txID ∧ k ≠ e'.2.info.rxID)) := by
  constructor
  · intro k hop hmem hexp
    constructor
    · intro hin
      exact ((mem_ExpirePaths.mp hin).2 (k, hop) hmem hexp).1 rfl
    · intro hin
      exact ((mem_ExpirePaths.mp hin).2 (k, hop) hmem hexp).2 rfl
  · intro k hop hmem _
    constructor
    · intro hin
      exact (mem_ExpirePaths.mp hin).2
    · intro hfree
      exact mem_ExpirePaths.mpr ⟨hmem, hfree⟩

/-- C1 counterexample: register hop `A = {tx 1, rx 2, lifetime 0, started 0}`
and hop `B = {tx 1, rx 3, lifetime 100, started 0}`, which share TX id 1.
At `now = 10` only `A` is expired, yet after `ExpirePaths` the still-live
`B` is no longer reachable by its TX id 1, because erasing `A`'s keys from
the multimap dropped `B`'s entry under the shared key — refuting the claim
that every entry with age ≤ lifetime stays reachable by both its ids. -/
theorem c1_counterexample :
    (TransitHop.Expired ⟨⟨1, 3, 0, 0, 100⟩, 0⟩ 10 = false)
    ∧ (TransitHop.info ⟨⟨1, 3, 0, 0, 100⟩, 0⟩).txID = 1
    ∧ ((1 : PathID), (⟨⟨1, 3, 0, 0, 100⟩, 0⟩ : TransitHop)) ∈
        PathContext.PutTransitHop
          (PathContext.PutTransitHop [] ⟨⟨1, 2, 0, 0, 0⟩, 0⟩) ⟨⟨1, 3, 0, 0, 100⟩, 0⟩
    ∧ ((1 : PathID), (⟨⟨1, 3, 0, 0, 100⟩, 0⟩ : TransitHop)) ∉
        PathContext.ExpirePaths 10
          (PathContext.PutTransitHop
            (PathContext.PutTransitHop [] ⟨⟨1, 2, 0, 0, 0⟩, 0⟩) ⟨⟨1, 3, 0, 0, 100⟩, 0⟩) := by
  decide

/-- C1 witness for the amended statement, exercising all three parts:
with disjoint ids (`A = {tx 1, rx 2}` expired, `B = {tx 4, rx 3}` live)
the sweep at `now = 10` removes `A` from both its keys and keeps `B` under
its clean TX key 4 (the "if" direction); with the shared-key registry of
the counterexample (`B' = {tx 1, rx 3}` live, sharing key 1 with expired
`A`), the "only if" direction drops `B'`'s entry under key 1. -/
theorem c1_expire_sweep_witness :
    (((⟨⟨1, 2, 0, 0, 0⟩, 0⟩ : TransitHop).info.txID, (⟨⟨1, 2, 0, 0, 0⟩, 0⟩ : TransitHop)) ∉
      PathContext.ExpirePaths 10
        (PathContext.PutTransitHop
          (PathContext.PutTransitHop [] ⟨⟨1, 2, 0, 0, 0⟩, 0⟩) ⟨⟨4, 3, 0, 0, 100⟩, 0⟩)
    ∧ ((4 : PathID), (⟨⟨4, 3, 0, 0, 100⟩, 0⟩ : TransitHop)) ∈
      PathContext.ExpirePaths 10
        (PathContext.PutTransitHop
          (PathContext.PutTransitHop [] ⟨⟨1, 2, 0, 0, 0⟩, 0⟩) ⟨⟨4, 3, 0, 0, 100⟩, 0⟩))
    ∧ ((1 : PathID), (⟨⟨1, 3, 0, 0, 100⟩, 0⟩ : TransitHop)) ∉
      PathContext.ExpirePaths 10
        (PathContext.PutTransitHop
          (PathContext.PutTransitHop [] ⟨⟨1, 2, 0, 0, 0⟩, 0⟩) ⟨⟨1, 3, 0, 0, 100⟩, 0⟩) :=
  ⟨⟨((c1_expire_sweep
      (PathContext.PutTransitHop
        (PathContext.PutTransitHop [] ⟨⟨1, 2, 0, 0, 0⟩, 0⟩) ⟨⟨4, 3, 0, 0, 100⟩, 0⟩) 10).1
      1 ⟨⟨1, 2, 0, 0, 0⟩, 0⟩ (by decide) (by decide)).1,
    ((c1_expire_sweep
      (PathContext.PutTransitHop
        (PathContext.PutTransitHop [] ⟨⟨1, 2, 0, 0, 0⟩, 0⟩) ⟨⟨4, 3, 0, 0, 100⟩, 0⟩) 10).2
      4 ⟨⟨4, 3, 0, 0, 100⟩, 0⟩ (by decide) (by decide)).mpr (by decide)⟩,
   fun hin => absurd
     (((c1_expire_sweep
        (PathContext.PutTransitHop
          (PathContext.PutTransitHop [] ⟨⟨1, 2, 0, 0, 0⟩, 0⟩) ⟨⟨1, 3, 0, 0, 100⟩, 0⟩) 10).2
        1 ⟨⟨1, 3, 0, 0, 100⟩, 0⟩ (by decide) (by decide)).mp hin) (by decide)⟩

/-- C7: immediately after `PutTransitHop(hop)`, `HasTransitHop(hop.info)`
is true; and after an `ExpirePaths` sweep whose collection contains `hop`
(i.e. `hop` was registered and expired at sweep time),
`HasTransitHop(hop.info)` is false. -/
theorem c7_transit_hop_lifecycle (m : TransitMap) (hop : TransitHop)
    (now : Nat) (k : PathID) :
    PathContext.HasTransitHop (PathContext.PutTransitHop m hop) hop.info = true
    ∧ ((k, hop) ∈ m → hop.Expired now = true →
        PathContext.HasTransitHop (PathContext.ExpirePaths now m) hop.info = false) := by
  constructor
  · simp [PathContext.HasTransitHop, PathContext.PutTransitHop, MapHas, MapPut,
      List.any_append]
  · intro hmem hexp
    rw [Bool.eq_false_iff]
    intro htrue
    simp only [PathContext.HasTransitHop, MapHas, List.any_eq_true,
      Bool.and_eq_true, beq_iff_eq] at htrue
    obtain ⟨e, he, hkey, _⟩ := htrue
    have := (mem_ExpirePaths.mp he).2 (k, hop) hmem hexp
    exact this.1 hkey

/-- C7 witness: hop `{tx 1, rx 2, lifetime 0, started 0}` is found by
`HasTransitHop` right after insertion into the empty registry, and is no
longer found after the sweep at `now = 10` that reaps it. -/
theorem c7_transit_hop_lifecycle_witness :
    PathContext.HasTransitHop
      (PathContext.PutTransitHop [] ⟨⟨1, 2, 0, 0, 0⟩, 0⟩)
      (⟨⟨1, 2, 0, 0, 0⟩, 0⟩ : TransitHop).info = true
    ∧ PathContext.HasTransitHop
      (PathContext.ExpirePaths 10 (PathContext.PutTransitHop [] ⟨⟨1, 2, 0, 0, 0⟩, 0⟩))
      (⟨⟨1, 2, 0, 0, 0⟩, 0⟩ : TransitHop).info = false :=
  ⟨(c7_transit_hop_lifecycle [] ⟨⟨1, 2, 0, 0, 0⟩, 0⟩ 10 1).1,
   (c7_transit_hop_lifecycle
      (PathContext.PutTransitHop [] ⟨⟨1, 2, 0, 0, 0⟩, 0⟩) ⟨⟨1, 2, 0, 0, 0⟩, 0⟩ 10 1).2
      (by decide) (by decide)⟩

/-! ## Lookup lemmas -/

lemma MapGet_some {V : Type} {m : List (PathID × V)} {k : PathID}
    {check : V → Bool} (h : ∃ v, (k, v) ∈ m ∧ check v = true) :
    ∃ v, MapGet m k check = some v ∧ (k, v) ∈ m ∧ check v = true := by
  obtain ⟨v, hvm, hvc⟩ := h
  have hsome : (m.find? fun e => e.1 == k && check e.2).isSome := by
    rw [List.find?_isSome]
    exact ⟨(k, v), hvm, by simp [hvc]⟩
  obtain ⟨e, heq⟩ := Option.isSome_iff_exists.mp hsome
  have hpred := List.find?_some heq
  simp only [Bool.and_eq_true, beq_iff_eq] at hpred
  have hmem := List.mem_of_find?_eq_some heq
  refine ⟨e.2, ?_, ?_, hpred.2⟩
  · unfold MapGet
    rw [heq]
    rfl
  · rw [← hpred.1]
    exact hmem

lemma MapGet_none {V : Type} {m : List (PathID × V)} {k : PathID}
    {check : V → Bool} (h : ∀ v, (k, v) ∈ m → check v = false) :
    MapGet m k check = none := by
  unfold MapGet
  have hnone : (m.find? fun e => e.1 == k && check e.2) = none := by
    rw [List.find?_eq_none]
    intro e he
    simp only [Bool.and_eq_true, beq_iff_eq, not_and]
    intro h1
    have hke : (k, e.2) ∈ m := by
      rw [← h1]
      exact he
    rw [h e.2 hke]
    simp
  rw [hnone]
  rfl

/-- C4: `GetByUpstream(R, id)` prefers own-paths: when some own-path entry
under `id` has `hop[0].router = R` the result is such an own-path entry
(whatever the transit map holds under the same id); when no own-path entry
under `id` matches, the result is a matching transit entry when one exists,
and the `nullptr` sentinel (`none`) when neither map matches. -/
theorem c4_getByUpstream (own : OwnMap) (transit : TransitMap)
    (remote : RouterID) (id : PathID) :
    ((∃ p, (id, p) ∈ own ∧ p.Upstream = remote) →
      ∃ p, PathContext.GetByUpstream own transit remote id = some (Sum.inl p)
        ∧ (id, p) ∈ own ∧ p.Upstream = remote)
    ∧ ((∀ p, (id, p) ∈ own → p.Upstream ≠ remote) →
        ((∃ h, (id, h) ∈ transit ∧ h.info.upstream = remote) →
          ∃ h, PathContext.GetByUpstream own transit remote id = some (Sum.inr h)
            ∧ (id, h) ∈ transit ∧ h.info.upstream = remote)
        ∧ ((∀ h, (id, h) ∈ transit → h.info.upstream ≠ remote) →
            PathContext.GetByUpstream own transit remote id = none)) := by
  constructor
  · rintro ⟨p, hpm, hpu⟩
    obtain ⟨v, hveq, hvm, hvc⟩ :=
      @MapGet_some _ own id (fun p => p.Upstream == remote)
        ⟨p, hpm, by simp [hpu]⟩
    refine ⟨v, ?_, hvm, by simpa using hvc⟩
    simp [PathContext.GetByUpstream, hveq]
  · intro hnoown
    have hnone : MapGet own id (fun p => p.Upstream == remote) = none :=
      MapGet_none fun v hv => by simpa using hnoown v hv
    constructor
    · rintro ⟨h, hhm, hhu⟩
      obtain ⟨v, hveq, hvm, hvc⟩ :=
        @MapGet_some _ transit id
          (fun hop => hop.info.upstream == remote) ⟨h, hhm, by simp [hhu]⟩
      refine ⟨v, ?_, hvm, by simpa using hvc⟩
      simp [PathContext.GetByUpstream, hnone, hveq]
    · intro hnotransit
      have hnone2 : MapGet transit id (fun hop => hop.info.upstream == remote) = none :=
        MapGet_none fun v hv => by simpa using hnotransit v hv
      simp [PathContext.GetByUpstream, hnone, hnone2]

/-- C4 witness: with `own = [(9, path with hop router 5)]` and
`transit = [(9, hop with upstream 5)]`, `GetByUpstream(5, 9)` returns the
own-path entry; with an own map whose entry does not match
(`hop router 6 ≠ 5`), it returns the transit entry. -/
theorem c4_getByUpstream_witness :
    (∃ p, PathContext.GetByUpstream [(9, ⟨[⟨5, 1, 2, 0, 0⟩], 0⟩)]
        [(9, ⟨⟨1, 2, 5, 0, 0⟩, 0⟩)] 5 9 = some (Sum.inl p)
      ∧ ((9 : PathID), p) ∈ [((9 : PathID), (⟨[⟨5, 1, 2, 0, 0⟩], 0⟩ : Path))]
      ∧ p.Upstream = 5)
    ∧ (∃ h, PathContext.GetByUpstream [(9, ⟨[⟨6, 1, 2, 0, 0⟩], 0⟩)]
        [(9, ⟨⟨1, 2, 5, 0, 0⟩, 0⟩)] 5 9 = some (Sum.inr h)
      ∧ ((9 : PathID), h) ∈ [((9 : PathID), (⟨⟨1, 2, 5, 0, 0⟩, 0⟩ : TransitHop))]
      ∧ h.info.upstream = 5) :=
  ⟨(c4_getByUpstream [(9, ⟨[⟨5, 1, 2, 0, 0⟩], 0⟩)] [(9, ⟨⟨1, 2, 5, 0, 0⟩, 0⟩)] 5 9).1
      ⟨⟨[⟨5, 1, 2, 0, 0⟩], 0⟩, by decide, by decide⟩,
   ((c4_getByUpstream [(9, ⟨[⟨6, 1, 2, 0, 0⟩], 0⟩)] [(9, ⟨⟨1, 2, 5, 0, 0⟩, 0⟩)] 5 9).2
      (by
        intro p hp
        simp only [List.mem_singleton, Prod.mk.injEq] at hp
        rw [hp.2]
        decide)).1 ⟨⟨⟨1, 2, 5, 0, 0⟩, 0⟩, by decide, by decide⟩⟩

/-- C8: `SendRoutingMessage` returns false and sends nothing whenever the
serialized message does not fit the fixed-capacity scratch buffer;
otherwise it hands exactly the written bytes (the buffer rewound to its
written extent), under the freshly drawn nonce `N`, to `HandleUpstream`,
issuing that one send and returning the transport result. -/
theorem c8_sendRoutingMessage (ks : SharedKey → TunnelNonce → Nat → Nat)
    (send : RouterID → RelayUpstreamMessage → Bool) (cap : Nat) (p : Path)
    (msgBytes : List Nat) (N : TunnelNonce) :
    (msgBytes.length > cap →
      p.SendRoutingMessage ks send cap msgBytes N = (false, []))
    ∧ (msgBytes.length ≤ cap →
        p.SendRoutingMessage ks send cap msgBytes N
          = ((p.HandleUpstream ks send msgBytes N).2,
             [(p.Upstream, ⟨applyLayers ks p.hops N msgBytes, N, p.TXID⟩)])) := by
  constructor
  · intro h
    simp [Path.SendRoutingMessage, h]
  · intro h
    simp [Path.SendRoutingMessage, Nat.not_lt.mpr h, Path.HandleUpstream]

/-- C8 witness: with capacity 2, the 3-byte message `[1, 2, 3]` is dropped
(`(false, [])`, no send); with capacity 8 it is sent, the send succeeding
under a transport that accepts everything. -/
theorem c8_sendRoutingMessage_witness :
    Path.SendRoutingMessage (fun _ _ _ => 0) (fun _ _ => true) 2
      ⟨[⟨7, 1, 2, 0, 0⟩], 0⟩ [1, 2, 3] 0 = (false, [])
    ∧ (Path.SendRoutingMessage (fun _ _ _ => 0) (fun _ _ => true) 8
        ⟨[⟨7, 1, 2, 0, 0⟩], 0⟩ [1, 2, 3] 0).1 = true :=
  ⟨(c8_sendRoutingMessage (fun _ _ _ => 0) (fun _ _ => true) 2
      ⟨[⟨7, 1, 2, 0, 0⟩], 0⟩ [1, 2, 3] 0).1 (by decide),
   by
    rw [(c8_sendRoutingMessage (fun _ _ _ => 0) (fun _ _ => true) 8
      ⟨[⟨7, 1, 2, 0, 0⟩], 0⟩ [1, 2, 3] 0).2 (by decide)]
    rfl⟩

/-! ## `BEncodeReadArray` lemmas -/

lemma readArrayLoop_false_of_count (dec : List Nat → Option (List Nat))
    (k : Nat) :
    ∀ (fuel idx : Nat) (buf : List Nat) (n : Nat),
      countListLoop dec fuel buf = some n → idx ≤ k → k < idx + n →
      (readArrayLoop dec k fuel idx buf).1 = false := by
  intro fuel
  induction fuel with
  | zero => intro idx buf n hc; simp [countListLoop] at hc
  | succ fuel ih =>
      intro idx buf n hc hik hkn
      match buf with
      | [] => simp [countListLoop] at hc
      | c :: rest =>
          by_cases hce : c = 101
          · rw [countListLoop, if_pos hce] at hc
            have hn : n = 0 := by
              cases hc
              rfl
            omega
          · rw [countListLoop, if_neg hce] at hc
            match hdec : dec (c :: rest) with
            | none => simp [hdec] at hc
            | some buf' =>
                simp only [hdec] at hc
                match hc2 : countListLoop dec fuel buf' with
                | none => simp [hc2] at hc
                | some n1 =>
                    rw [hc2] at hc
                    simp at hc
                    by_cases hk : k ≤ idx
                    · rw [readArrayLoop, if_neg hce, if_pos hk]
                    · rw [readArrayLoop, if_neg hce, if_neg hk]
                      simp only [hdec]
                      exact ih (idx + 1) buf' n1 hc2 (by omega) (by omega)

lemma readArrayLoop_trace (dec : List Nat → Option (List Nat)) (k : Nat) :
    ∀ (fuel idx : Nat) (buf : List Nat), idx ≤ k →
      (readArrayLoop dec k fuel idx buf).2
          = List.range' idx (readArrayLoop dec k fuel idx buf).2.length
        ∧ idx + (readArrayLoop dec k fuel idx buf).2.length ≤ k := by
  intro fuel
  induction fuel with
  | zero => intro idx buf hik; simp [readArrayLoop]; omega
  | succ fuel ih =>
      intro idx buf hik
      match buf with
      | [] => simp [readArrayLoop]; omega
      | c :: rest =>
          by_cases hce : c = 101
          · rw [readArrayLoop, if_pos hce]
            simp
            omega
          · by_cases hk : k ≤ idx
            · rw [readArrayLoop, if_neg hce, if_pos hk]
              simp
              omega
            · rw [readArrayLoop, if_neg hce, if_neg hk]
              match hdec : dec (c :: rest) with
              | none => simp; omega
              | some buf' =>
                  simp only
                  have h2 := ih (idx + 1) buf' (by omega)
                  constructor
                  · simp only [List.length_cons, List.range'_succ, List.cons.injEq,
                      true_and]
                    exact h2.1
                  · simp only [List.length_cons]
                    omega

/-- C10: for a destination array of size `k`, `BEncodeReadArray` (a) returns
false whenever the bencoded list in the buffer holds more than `k`
elements, and (b) only ever attempts element decodes at the consecutive
indices `0, 1, ..., m-1` for some `m ≤ k` — it never decodes into an index
`≥ k`, and it decodes in list order. -/
theorem c10_bencodeReadArray (dec : List Nat → Option (List Nat)) (k : Nat)
    (buf : List Nat) (n : Nat) :
    (bencodeListCount dec buf = some n → k < n →
      (BEncodeReadArray dec k buf).1 = false)
    ∧ (BEncodeReadArray dec k buf).2
        = List.range (BEncodeReadArray dec k buf).2.length
    ∧ (BEncodeReadArray dec k buf).2.length ≤ k := by
  refine ⟨?_, ?_, ?_⟩
  · intro hc hkn
    match buf with
    | [] => simp [bencodeListCount] at hc
    | [c] => simp [bencodeListCount] at hc
    | c :: b :: rest =>
        by_cases hcl : c = 108
        · simp only [bencodeListCount, if_pos hcl] at hc
          simp only [BEncodeReadArray, if_pos hcl]
          exact readArrayLoop_false_of_count dec k (rest.length + 2) 0 (b :: rest) n
            hc (Nat.zero_le k) (by omega)
        · simp [bencodeListCount, if_neg hcl] at hc
  · match buf with
    | [] => simp [BEncodeReadArray]
    | [c] => simp [BEncodeReadArray]
    | c :: b :: rest =>
        by_cases hcl : c = 108
        · simp only [BEncodeReadArray, if_pos hcl]
          rw [List.range_eq_range']
          exact (readArrayLoop_trace dec k (rest.length + 2) 0 (b :: rest)
            (Nat.zero_le k)).1
        · simp [BEncodeReadArray, if_neg hcl]
  · match buf with
    | [] => simp [BEncodeReadArray]
    | [c] => simp [BEncodeReadArray]
    | c :: b :: rest =>
        by_cases hcl : c = 108
        · simp only [BEncodeReadArray, if_pos hcl]
          have h := readArrayLoop_trace dec k (rest.length + 2) 0 (b :: rest)
            (Nat.zero_le k)
          omega
        · simp [BEncodeReadArray, if_neg hcl]

/-- C10 witness: decoding the two-element bencoded list `"laae"`
(bytes `[108, 97, 97, 101]`, under the element decoder that consumes one
byte) into an array of size 1 returns false, and its decode trace `[0]`
never reaches index 1. -/
theorem c10_bencodeReadArray_witness :
    (BEncodeReadArray (fun l => some l.tail) 1 [108, 97, 97, 101]).1 = false
    ∧ (BEncodeReadArray (fun l => some l.tail) 1 [108, 97, 97, 101]).2
        = List.range
            (BEncodeReadArray (fun l => some l.tail) 1 [108, 97, 97, 101]).2.length :=
  have h := c10_bencodeReadArray (fun l => some l.tail) 1 [108, 97, 97, 101] 2
  ⟨h.1 rfl (by decide), h.2.1⟩

end llarp
